import Mathlib

/-!
# Virtual-camera output settings (`src/gui/OutputSettingsWidget.cpp`)

A shallow embedding of the settings logic of `OutputSettingsWidget`: the
preset table, `buildResolutionLabel`, `resolutionSizeForKey`,
`modprobeCommandForDevice`, the three accessors and the three load setters.

The Qt classes the code calls are modelled by the part of their documented
behaviour the code uses:

* `QString` is a list of characters; `trimmed`, `indexOf`, `left`, `mid`,
  `replace`, `compare`, `toInt`, `arg` are functions on such lists;
* `QSize` is a pair of integers, `QSize()` being `(-1, -1)`;
* `QCheckBox`, `QLineEdit`, `QComboBox` are records of the properties the
  widget reads and writes, each with its `signalsBlocked` flag; an operation
  that can emit a connected signal returns the emissions next to the new
  record; the line edit cuts a text at its `maxLength` of 32767 UTF-16 code
  units;
* `tr` is the identity (no translator installed).
-/

namespace OutputSettings

/-! ## QString -/

/-- A `QString`, as the list of its characters. -/
abbrev QString := List Char

/-- Model of `QChar::isSpace`: the ASCII white space `\t \n \v \f \r` and
the space, `U+0085`, `U+00A0`, and the Unicode separators (categories
Zs, Zl, Zp). -/
def isSpace (c : Char) : Bool :=
  let n := c.toNat
  n == 0x20 || (0x09 ≤ n && n ≤ 0x0D) || n == 0x85 || n == 0xA0 || n == 0x1680 ||
    (0x2000 ≤ n && n ≤ 0x200A) || n == 0x2028 || n == 0x2029 || n == 0x202F ||
    n == 0x205F || n == 0x3000

/-- An ASCII decimal digit, `'0'` to `'9'`. -/
def isAsciiDigit (c : Char) : Bool :=
  48 ≤ c.toNat && c.toNat ≤ 57

/-- The value of an ASCII decimal digit. -/
def digitValue (c : Char) : Nat :=
  c.toNat - 48

/-- Model of `QString::trimmed`: white space removed from both ends. -/
def trimmed (s : QString) : QString :=
  ((s.dropWhile isSpace).reverse.dropWhile isSpace).reverse

/-- Model of `QString::replace(QChar before, QChar after)`: every occurrence
of `before` becomes `after`. -/
def replaceChar (before after : Char) (s : QString) : QString :=
  s.map fun c => if c = before then after else c

/-- Position of the first `c` in `s`, counted from `start`, or `-1`. -/
def indexOfFrom (c : Char) : QString → Int → Int
  | [], _ => -1
  | d :: rest, start => if d = c then start else indexOfFrom c rest (start + 1)

/-- Model of `QString::indexOf(QChar)`: the position of the first
occurrence, `-1` when there is none. -/
def indexOf (s : QString) (c : Char) : Int :=
  indexOfFrom c s 0

/-- Model of `QString::left(n)`: the first `n` characters, the whole string
when `n` is negative or not smaller than the size. -/
def left (s : QString) (n : Int) : QString :=
  if n < 0 ∨ (s.length : Int) ≤ n then s else s.take n.toNat

/-- Model of `QString::mid(position)`: the characters from `position` to the
end, nothing when `position` is past the end; a negative `position` counts
as 0. -/
def mid (s : QString) (position : Int) : QString :=
  s.drop position.toNat

/-- Case folding of one character, as far as it can reach an ASCII letter:
`A`-`Z` fold to `a`-`z`, the Kelvin sign to `k`, the long s to `s`. Every
other character folds to a non-ASCII character or to itself. -/
def foldCase (c : Char) : Char :=
  if 65 ≤ c.toNat ∧ c.toNat ≤ 90 then Char.ofNat (c.toNat + 32)
  else if c.toNat = 0x212A then 'k'
  else if c.toNat = 0x17F then 's'
  else c

/-- Model of `s.compare(literal, Qt::CaseInsensitive) == 0` for an ASCII
lower-case `literal`: the two strings are equal after case folding. -/
def equalsIgnoreCase (s literal : QString) : Bool :=
  s.map foldCase == literal

/-- Model of `QString::toInt(&ok)` (base 10, C locale), as the pair of the
returned value and `ok`. White space around the number is skipped, then an
optional sign (`+`, `-` or `U+2212`) and one or more ASCII digits must make
up the whole rest, and the value must fit a 32-bit `int`. On failure the
value is 0 and `ok` is false. -/
def toInt (s : QString) : Int × Bool :=
  let t := trimmed s
  let negative := t.head? = some '-' ∨ t.head? = some (Char.ofNat 0x2212)
  let digits := if t.head? = some '+' ∨ negative then t.tail else t
  if digits = [] ∨ digits.all isAsciiDigit = false then (0, false)
  else
    let magnitude : Int := (digits.foldl (fun acc d => 10 * acc + digitValue d) 0 : Nat)
    let value : Int := if negative then -magnitude else magnitude
    if -2147483648 ≤ value ∧ value ≤ 2147483647 then (value, true) else (0, false)

/-- Model of `QString::number(int)` in base 10, which is also what
`QString::arg(int)` substitutes: the decimal digits, after a `-` for a
negative number. -/
def number (n : Int) : QString :=
  if n < 0 then '-' :: Nat.toDigits 10 n.natAbs else Nat.toDigits 10 n.toNat

/-- A piece of a format string: a plain character, or a place marker `%N`
(`N` of one or two digits) together with its text. -/
inductive ArgToken where
  | lit (c : Char)
  | marker (n : Nat) (text : QString)
  deriving DecidableEq, Repr

/-- Where the scan of a format string stands: in plain text, right after a
`%`, or after a `%` and a first digit. -/
inductive ScanState where
  | plain
  | percent
  | digit (d1 : Char)

/-- The scan of `QString::arg` for place markers, one character at a time:
a `%` followed by one or two ASCII digits is a marker, any other character
stands for itself (a character that ends a failed or a one-digit marker is
looked at again as plain text). The locale flag of `%L1` is not modelled; no
format string of the widget has it. -/
def scanArg : ScanState → QString → List ArgToken
  | ScanState.plain, [] => []
  | ScanState.plain, c :: rest =>
    if c = '%' then scanArg ScanState.percent rest
    else ArgToken.lit c :: scanArg ScanState.plain rest
  | ScanState.percent, [] => [ArgToken.lit '%']
  | ScanState.percent, c :: rest =>
    if isAsciiDigit c then scanArg (ScanState.digit c) rest
    else if c = '%' then ArgToken.lit '%' :: scanArg ScanState.percent rest
    else ArgToken.lit '%' :: ArgToken.lit c :: scanArg ScanState.plain rest
  | ScanState.digit d1, [] => [ArgToken.marker (digitValue d1) ['%', d1]]
  | ScanState.digit d1, c :: rest =>
    if isAsciiDigit c then
      ArgToken.marker (10 * digitValue d1 + digitValue c) ['%', d1, c] ::
        scanArg ScanState.plain rest
    else if c = '%' then
      ArgToken.marker (digitValue d1) ['%', d1] :: scanArg ScanState.percent rest
    else
      ArgToken.marker (digitValue d1) ['%', d1] :: ArgToken.lit c ::
        scanArg ScanState.plain rest

/-- The tokens of a format string. -/
def argTokens (s : QString) : List ArgToken :=
  scanArg ScanState.plain s

/-- The lowest marker number among the tokens, if there is a marker. -/
def lowestMarker : List ArgToken → Option Nat
  | [] => none
  | ArgToken.lit _ :: rest => lowestMarker rest
  | ArgToken.marker n _ :: rest =>
    match lowestMarker rest with
    | none => some n
    | some m => some (min n m)

/-- The tokens written back, every marker numbered `n` replaced by `a`. -/
def substituteMarker (n : Nat) (a : QString) : List ArgToken → QString
  | [] => []
  | ArgToken.lit c :: rest => c :: substituteMarker n a rest
  | ArgToken.marker m text :: rest =>
    (if m = n then a else text) ++ substituteMarker n a rest

/-- Model of `QString::arg(const QString &a)`: every occurrence of the
lowest-numbered place marker is replaced by `a`; a string without a marker
is returned unchanged. -/
def arg (s a : QString) : QString :=
  match lowestMarker (argTokens s) with
  | none => s
  | some n => substituteMarker n a (argTokens s)

/-- Model of `QObject::tr` with no translator installed: the source text. -/
def tr (sourceText : String) : QString :=
  sourceText.toList

/-! ## QSize and QRegularExpression -/

/-- A `QSize`: a width and a height. -/
structure QSize where
  width : Int
  height : Int
  deriving DecidableEq, Repr

/-- The default-constructed `QSize()`, which is invalid: `(-1, -1)`. -/
def QSize.invalid : QSize :=
  ⟨-1, -1⟩

/-- Model of `QSize::isValid`: neither the width nor the height is
negative. -/
def QSize.isValid (s : QSize) : Bool :=
  decide (0 ≤ s.width) && decide (0 ≤ s.height)

/-- The rest of `s` after the prefix `p`, if `s` starts with `p`. -/
def stripPrefix : QString → QString → Option QString
  | [], s => some s
  | _ :: _, [] => none
  | c :: p, d :: s => if c = d then stripPrefix p s else none

/-- Model of matching `QRegularExpression("^/dev/video(\\d+)$")` against
`subject`, giving `captured(1)` when there is a match. Without pattern
options `\d` is an ASCII digit, and `$` holds at the end of the subject and
also right before a line feed that ends the subject. -/
def videoRegexMatch (subject : QString) : Option QString :=
  match stripPrefix "/dev/video".toList subject with
  | none => none
  | some rest =>
    let digits := rest.takeWhile isAsciiDigit
    let tail := rest.dropWhile isAsciiDigit
    if digits ≠ [] ∧ (tail = [] ∨ tail = ['\n']) then some digits else none

/-! ## The anonymous namespace of `OutputSettingsWidget.cpp` -/

/-- One entry of the preset table. -/
structure VirtualCameraResolutionPreset where
  key : String
  width : Int
  height : Int
  deriving DecidableEq, Repr

/-- The built-in presets, in display order. -/
def kVirtualCameraResolutionPresets : List VirtualCameraResolutionPreset :=
  [⟨"match", 0, 0⟩, ⟨"960x540", 960, 540⟩, ⟨"1280x720", 1280, 720⟩, ⟨"1920x1080", 1920, 1080⟩]

/-- The label of a preset in the resolution list. -/
def buildResolutionLabel (preset : VirtualCameraResolutionPreset) : QString :=
  if preset.width ≤ 0 ∨ preset.height ≤ 0 then
    tr "Match preview resolution"
  else
    let progressiveHeight := preset.height
    arg (arg (arg (tr "%1p (%2 x %3)") (number progressiveHeight)) (number preset.width))
      (number preset.height)

/-- The fixed size a resolution key stands for, `QSize()` when it stands for
none. -/
def resolutionSizeForKey (key : QString) : QSize :=
  if key.isEmpty ∨ equalsIgnoreCase key "match".toList then
    QSize.invalid
  else
    let normalized := replaceChar 'X' 'x' (trimmed key)
    let separator := indexOf normalized 'x'
    if separator ≤ 0 then
      QSize.invalid
    else
      let (width, okWidth) := toInt (left normalized separator)
      let (height, okHeight) := toInt (mid normalized (separator + 1))
      if !okWidth || !okHeight || decide (width ≤ 0) || decide (height ≤ 0) then
        QSize.invalid
      else
        ⟨width, height⟩

/-- The `modprobe` command suggested for a device path. -/
def modprobeCommandForDevice (devicePath : QString) : QString :=
  let videoNr :=
    match videoRegexMatch (trimmed devicePath) with
    | some captured => captured
    | none => "42".toList
  arg (tr "sudo modprobe v4l2loopback video_nr=%1 card_label=\"OBSBOT Virtual Camera\" exclusive_caps=1")
    videoNr

/-! ## The controls of the widget -/

/-- The check box, as its `checked` property and its `signalsBlocked`
flag. -/
structure QCheckBox where
  checked : Bool
  signalsBlocked : Bool
  deriving DecidableEq, Repr

/-- Model of `QObject::blockSignals` on a check box. -/
def QCheckBox.blockSignals (c : QCheckBox) (block : Bool) : QCheckBox :=
  { c with signalsBlocked := block }

/-- Model of `QAbstractButton::setChecked`: the new check box and the
`toggled` emissions, one when the state changes and signals are not
blocked. -/
def QCheckBox.setChecked (c : QCheckBox) (checked : Bool) : QCheckBox × List Bool :=
  if c.checked = checked then (c, [])
  else ({ c with checked := checked }, if c.signalsBlocked then [] else [checked])

/-- Number of UTF-16 code units of a character in a `QString`: one in the
Basic Multilingual Plane, two (a surrogate pair) outside. -/
def utf16Units (c : Char) : Nat :=
  if c.toNat < 0x10000 then 1 else 2

/-- Model of `QString::left(n)` with `n` counted in UTF-16 code units, as
`QLineEdit::setText` applies it: the longest run of leading characters that
fits in `n` code units. (Where Qt would cut a surrogate pair in two and keep
its first half, the whole character is left out.) -/
def leftUnits : Nat → QString → QString
  | _, [] => []
  | n, c :: rest => if utf16Units c ≤ n then c :: leftUnits (n - utf16Units c) rest else []

/-- The `maxLength` of the line edit: Qt's default, which `setupUI` never
changes. -/
def QLineEdit.defaultMaxLength : Nat :=
  32767

/-- The line edit, as its `text` property and its `signalsBlocked` flag. It
has no input mask and no validator, and its `maxLength` stays at
`QLineEdit.defaultMaxLength`. -/
structure QLineEdit where
  text : QString
  signalsBlocked : Bool
  deriving DecidableEq, Repr

/-- Model of `QObject::blockSignals` on a line edit. -/
def QLineEdit.blockSignals (e : QLineEdit) (block : Bool) : QLineEdit :=
  { e with signalsBlocked := block }

/-- Model of `QLineEdit::setText`: the text is cut at `maxLength` and
stored. It never emits `editingFinished`, the only signal of the line edit
the widget is connected to. -/
def QLineEdit.setText (e : QLineEdit) (text : QString) : QLineEdit :=
  { e with text := leftUnits QLineEdit.defaultMaxLength text }

/-- The combo box: its items (display text and user data, here always a
string), the current index (`-1` for none) and its `signalsBlocked` flag. -/
structure QComboBox where
  items : List (QString × QString)
  currentIndex : Int
  signalsBlocked : Bool
  deriving DecidableEq, Repr

/-- A new combo box: no item, no current index. -/
def QComboBox.empty : QComboBox :=
  ⟨[], -1, false⟩

/-- Model of `QObject::blockSignals` on a combo box. -/
def QComboBox.blockSignals (c : QComboBox) (block : Bool) : QComboBox :=
  { c with signalsBlocked := block }

/-- Model of `QComboBox::count`. -/
def QComboBox.count (c : QComboBox) : Int :=
  c.items.length

/-- Index of the first item of `items` whose data is `data`, counted from
`start`, or `-1`. -/
def findDataFrom (data : QString) : List (QString × QString) → Int → Int
  | [], _ => -1
  | item :: rest, start => if item.2 = data then start else findDataFrom data rest (start + 1)

/-- Model of `QComboBox::findData(data)` with its default flags (exact,
case-sensitive): the index of the first item holding `data`, or `-1`. -/
def QComboBox.findData (c : QComboBox) (data : QString) : Int :=
  findDataFrom data c.items 0

/-- Model of `QComboBox::setCurrentIndex`: an index outside the items
stands for `-1`; the new combo box and the `currentIndexChanged` emissions,
one when the index changes and signals are not blocked. -/
def QComboBox.setCurrentIndex (c : QComboBox) (index : Int) : QComboBox × List Int :=
  let target := if 0 ≤ index ∧ index < c.count then index else -1
  if target = c.currentIndex then (c, [])
  else ({ c with currentIndex := target }, if c.signalsBlocked then [] else [target])

/-- Model of `QComboBox::addItem(text, userData)`: the item is appended; the
first item of a combo box that was empty becomes the current one. -/
def QComboBox.addItem (c : QComboBox) (text data : QString) : QComboBox × List Int :=
  let added := { c with items := c.items ++ [(text, data)] }
  if c.items = [] then added.setCurrentIndex 0 else (added, [])

/-- Model of `QComboBox::currentData().toString()`: the data of the current
item, the empty string when the current index names no item. -/
def QComboBox.currentData (c : QComboBox) : QString :=
  if c.currentIndex < 0 then []
  else match c.items.get? c.currentIndex.toNat with
    | some item => item.2
    | none => []

/-- Model of `QComboBox::currentText()`: the text of the current item, the
empty string when the current index names no item. -/
def QComboBox.currentText (c : QComboBox) : QString :=
  if c.currentIndex < 0 then []
  else match c.items.get? c.currentIndex.toNat with
    | some item => item.1
    | none => []

/-! ## OutputSettingsWidget -/

/-- The signals of the widget, each relayed from one control. -/
inductive Signal where
  | virtualCameraToggled (enabled : Bool)
  | devicePathEdited
  | resolutionChanged (index : Int)
  deriving DecidableEq, Repr

/-- The widget: its three input controls, each a pointer that is null
(`none`) until `setupUI` has run. The two labels hold no setting and are
left out. -/
structure OutputSettingsWidget where
  m_enableCheckbox : Option QCheckBox
  m_deviceEdit : Option QLineEdit
  m_resolutionCombo : Option QComboBox
  deriving DecidableEq, Repr

/-- The controls as `setupUI` creates them: an unchecked check box, an empty
line edit, and a combo box with one item per preset. The combo box is
connected to `resolutionChanged` only after it has been filled, so filling
it emits nothing. -/
def OutputSettingsWidget.setupUI (_w : OutputSettingsWidget) : OutputSettingsWidget :=
  let combo := kVirtualCameraResolutionPresets.foldl
    (fun combo preset => (combo.addItem (buildResolutionLabel preset) preset.key.toList).1)
    QComboBox.empty
  { m_enableCheckbox := some ⟨false, false⟩
    m_deviceEdit := some ⟨[], false⟩
    m_resolutionCombo := some combo }

/-- The constructor: null pointers, then `setupUI`. -/
def OutputSettingsWidget.construct : OutputSettingsWidget :=
  OutputSettingsWidget.setupUI ⟨none, none, none⟩

/-- The accessor `isVirtualCameraEnabled`. -/
def OutputSettingsWidget.isVirtualCameraEnabled (w : OutputSettingsWidget) : Bool :=
  match w.m_enableCheckbox with
  | none => false
  | some checkbox => checkbox.checked

/-- The accessor `devicePath`. -/
def OutputSettingsWidget.devicePath (w : OutputSettingsWidget) : QString :=
  match w.m_deviceEdit with
  | none => "/dev/video42".toList
  | some edit =>
    let path := trimmed edit.text
    if path.isEmpty then "/dev/video42".toList else path

/-- The accessor `resolutionKey`. -/
def OutputSettingsWidget.resolutionKey (w : OutputSettingsWidget) : QString :=
  match w.m_resolutionCombo with
  | none => "match".toList
  | some combo =>
    if combo.currentIndex < 0 then "match".toList else combo.currentData

/-- The load setter `setVirtualCameraEnabled`: the new widget and the signals
emitted during the call. -/
def OutputSettingsWidget.setVirtualCameraEnabled (w : OutputSettingsWidget) (enabled : Bool) :
    OutputSettingsWidget × List Signal :=
  match w.m_enableCheckbox with
  | none => (w, [])
  | some checkbox =>
    let checkbox := checkbox.blockSignals true
    let (checkbox, toggled) := checkbox.setChecked enabled
    let checkbox := checkbox.blockSignals false
    ({ w with m_enableCheckbox := some checkbox }, toggled.map Signal.virtualCameraToggled)

/-- The load setter `setDevicePath`: the new widget and the signals emitted
during the call. -/
def OutputSettingsWidget.setDevicePath (w : OutputSettingsWidget) (path : QString) :
    OutputSettingsWidget × List Signal :=
  match w.m_deviceEdit with
  | none => (w, [])
  | some edit =>
    let edit := edit.blockSignals true
    let edit := edit.setText path
    let edit := edit.blockSignals false
    ({ w with m_deviceEdit := some edit }, [])

/-- The load setter `setResolutionKey`: the new widget and the signals
emitted during the call. -/
def OutputSettingsWidget.setResolutionKey (w : OutputSettingsWidget) (key : QString) :
    OutputSettingsWidget × List Signal :=
  match w.m_resolutionCombo with
  | none => (w, [])
  | some combo =>
    let combo := combo.blockSignals true
    let index := combo.findData key
    let (combo, index, added) :=
      if index < 0 then
        let customSize := resolutionSizeForKey key
        if customSize.isValid then
          let label := arg (arg (tr "Custom (%1 x %2)") (number customSize.width))
            (number customSize.height)
          let (combo, emitted) := combo.addItem label key
          (combo, combo.count - 1, emitted)
        else
          (combo, combo.findData "match".toList, [])
      else
        (combo, index, [])
    let (combo, selected) := if 0 ≤ index then combo.setCurrentIndex index else (combo, [])
    let combo := combo.blockSignals false
    ({ w with m_resolutionCombo := some combo },
      (added ++ selected).map Signal.resolutionChanged)

/-- A widget reachable from a freshly constructed one by the load
setters. -/
inductive Reachable : OutputSettingsWidget → Prop where
  | construct : Reachable OutputSettingsWidget.construct
  | setVirtualCameraEnabled (w : OutputSettingsWidget) (enabled : Bool) :
      Reachable w → Reachable (w.setVirtualCameraEnabled enabled).1
  | setDevicePath (w : OutputSettingsWidget) (path : QString) :
      Reachable w → Reachable (w.setDevicePath path).1
  | setResolutionKey (w : OutputSettingsWidget) (key : QString) :
      Reachable w → Reachable (w.setResolutionKey key).1

/-! ## Lemmas on the string operations -/

theorem indexOfFrom_eq (c : Char) (s : QString) (start : Int) :
    indexOfFrom c s start = if c ∈ s then start + (s.indexOf c : Nat) else -1 := by
  induction s generalizing start with
  | nil => simp [indexOfFrom]
  | cons d rest ih =>
    by_cases h : d = c
    · subst h
      simp [indexOfFrom]
    · have h2 : ¬ c = d := fun e => h e.symm
      simp only [indexOfFrom, h, if_false, ih, List.mem_cons, h2, false_or,
        List.indexOf_cons_ne _ h]
      split
      · push_cast
        ring
      · rfl

theorem indexOf_eq (s : QString) (c : Char) :
    indexOf s c = if c ∈ s then ((s.indexOf c : Nat) : Int) else -1 := by
  simp [indexOf, indexOfFrom_eq]

theorem indexOf_nonpos_iff (s : QString) (c : Char) :
    indexOf s c ≤ 0 ↔ c ∉ s ∨ s.head? = some c := by
  rw [indexOf_eq]
  cases s with
  | nil => simp
  | cons d rest =>
    by_cases h : d = c
    · subst h
      simp
    · have h2 : ¬ c = d := fun e => h e.symm
      simp only [List.mem_cons, h2, false_or, List.head?_cons, Option.some.injEq, h, or_false,
        List.indexOf_cons_ne _ h]
      split
      · simp only [*, not_true_eq_false, iff_false, not_le]
        omega
      · simp [*]

/-- The definition of `resolutionSizeForKey` with the two `toInt` results
read through projections. -/
theorem resolutionSizeForKey_eq (key : QString) :
    resolutionSizeForKey key =
      if key = [] ∨ equalsIgnoreCase key "match".toList = true then QSize.invalid
      else if indexOf (replaceChar 'X' 'x' (trimmed key)) 'x' ≤ 0 then QSize.invalid
      else if
        (toInt (left (replaceChar 'X' 'x' (trimmed key))
          (indexOf (replaceChar 'X' 'x' (trimmed key)) 'x'))).2 = false ∨
        (toInt (mid (replaceChar 'X' 'x' (trimmed key))
          (indexOf (replaceChar 'X' 'x' (trimmed key)) 'x' + 1))).2 = false ∨
        (toInt (left (replaceChar 'X' 'x' (trimmed key))
          (indexOf (replaceChar 'X' 'x' (trimmed key)) 'x'))).1 ≤ 0 ∨
        (toInt (mid (replaceChar 'X' 'x' (trimmed key))
          (indexOf (replaceChar 'X' 'x' (trimmed key)) 'x' + 1))).1 ≤ 0
      then QSize.invalid
      else
        ⟨(toInt (left (replaceChar 'X' 'x' (trimmed key))
          (indexOf (replaceChar 'X' 'x' (trimmed key)) 'x'))).1,
        (toInt (mid (replaceChar 'X' 'x' (trimmed key))
          (indexOf (replaceChar 'X' 'x' (trimmed key)) 'x' + 1))).1⟩ := by
  unfold resolutionSizeForKey
  dsimp only
  generalize replaceChar 'X' 'x' (trimmed key) = n
  generalize equalsIgnoreCase key "match".toList = m
  generalize indexOf n 'x' = i
  generalize toInt (left n i) = a
  generalize toInt (mid n (i + 1)) = b
  obtain ⟨w, okw⟩ := a
  obtain ⟨h, okh⟩ := b
  by_cases h1 : key = [] ∨ m = true
  · have h1b : (key.isEmpty = true ∨ m = true) := by
      simpa [List.isEmpty_iff] using h1
    rw [if_pos h1, if_pos h1b]
  · have h1b : ¬ (key.isEmpty = true ∨ m = true) := by
      simpa [List.isEmpty_iff] using h1
    rw [if_neg h1, if_neg h1b]
    by_cases h2 : i ≤ 0
    · simp only [h2, if_true]
    · simp only [h2, if_false]
      cases okw <;> cases okh <;> by_cases hw : w ≤ 0 <;> by_cases hh : h ≤ 0 <;> simp [hw, hh]

/-! ## Lemmas on `trimmed` and on the device pattern -/

theorem dropWhile_head_not (p : Char → Bool) (s : QString) (c : Char)
    (h : (s.dropWhile p).head? = some c) : p c = false := by
  have := List.head?_dropWhile_not p s
  rw [h] at this
  exact this

theorem dropWhile_eq_self (p : Char → Bool) (s : QString)
    (h : ∀ c, s.head? = some c → p c = false) : s.dropWhile p = s := by
  cases s with
  | nil => rfl
  | cons c rest => simp [List.dropWhile, h c rfl]

/-- A trimmed string does not end in white space. -/
theorem trimmed_getLast (s : QString) (c : Char) (h : (trimmed s).getLast? = some c) :
    isSpace c = false := by
  unfold trimmed at h
  rw [List.getLast?_reverse] at h
  exact dropWhile_head_not _ _ _ h

/-- A string that neither starts nor ends with white space is its own
trimmed form. -/
theorem trimmed_eq_self (s : QString) (h1 : ∀ c, s.head? = some c → isSpace c = false)
    (h2 : ∀ c, s.getLast? = some c → isSpace c = false) : trimmed s = s := by
  unfold trimmed
  rw [dropWhile_eq_self _ s h1, dropWhile_eq_self _ s.reverse, List.reverse_reverse]
  intro c hc
  rw [List.head?_reverse] at hc
  exact h2 c hc

theorem stripPrefix_append (p s : QString) : stripPrefix p (p ++ s) = some s := by
  induction p with
  | nil => rfl
  | cons c rest ih => simp [stripPrefix, ih]

theorem stripPrefix_some (p s r : QString) (h : stripPrefix p s = some r) : s = p ++ r := by
  induction p generalizing s with
  | nil =>
    simp only [stripPrefix, Option.some.injEq] at h
    simp [h]
  | cons c rest ih =>
    cases s with
    | nil => simp [stripPrefix] at h
    | cons d s =>
      simp only [stripPrefix] at h
      split at h
      · rename_i hcd
        subst hcd
        rw [ih s h]
        rfl
      · simp at h

/-- The device pattern matches exactly "/dev/video" followed by ASCII
digits, or by ASCII digits and one final line feed; what it captures is the
digits. -/
theorem videoRegexMatch_eq_some (subject d : QString) :
    videoRegexMatch subject = some d ↔
      d ≠ [] ∧ (∀ c ∈ d, isAsciiDigit c = true) ∧
        (subject = "/dev/video".toList ++ d ∨ subject = "/dev/video".toList ++ d ++ ['\n']) := by
  unfold videoRegexMatch
  constructor
  · intro h
    split at h
    · simp at h
    · rename_i rest hrest
      have hsub := stripPrefix_some _ _ _ hrest
      simp only [] at h
      split at h
      · rename_i hcond
        simp only [Option.some.injEq] at h
        have hsplit := List.takeWhile_append_dropWhile isAsciiDigit rest
        rw [h] at hsplit hcond
        refine ⟨hcond.1, ?_, ?_⟩
        · intro c hc
          rw [← h] at hc
          exact List.mem_takeWhile_imp hc
        · rcases hcond.2 with ht | ht
          · left
            rw [hsub, ← hsplit, ht, List.append_nil]
          · right
            rw [hsub, ← hsplit, ht, List.append_assoc]
      · simp at h
  · rintro ⟨hne, hdig, hsub | hsub⟩
    · subst hsub
      rw [stripPrefix_append]
      have ht : d.takeWhile isAsciiDigit = d := List.takeWhile_eq_self_iff.2 hdig
      have hd : d.dropWhile isAsciiDigit = [] := List.dropWhile_eq_nil_iff.2 hdig
      simp [ht, hd, hne]
    · subst hsub
      rw [List.append_assoc, stripPrefix_append]
      have ht : (d ++ ['\n']).takeWhile isAsciiDigit = d := by
        rw [List.takeWhile_append_of_pos hdig]
        simp [List.takeWhile, show isAsciiDigit '\n' = false by decide]
      have hd : (d ++ ['\n']).dropWhile isAsciiDigit = ['\n'] := by
        rw [List.dropWhile_append_of_pos hdig]
        simp [List.dropWhile, show isAsciiDigit '\n' = false by decide]
      simp [ht, hd, hne]

/-! ## Lemmas on the text of the line edit -/

theorem toDigitsCore_append (fuel n : Nat) (ds : List Char) :
    Nat.toDigitsCore 10 fuel n ds = Nat.toDigitsCore 10 fuel n [] ++ ds := by
  induction fuel generalizing n ds with
  | zero => simp [Nat.toDigitsCore]
  | succ fuel ih =>
    simp only [Nat.toDigitsCore]
    split
    · simp
    · rw [ih (n / 10) (Nat.digitChar (n % 10) :: ds), ih (n / 10) [Nat.digitChar (n % 10)]]
      simp

theorem toDigitsCore_fuel (n : Nat) : ∀ fuel1 fuel2 : Nat, n < fuel1 → n < fuel2 →
    Nat.toDigitsCore 10 fuel1 n [] = Nat.toDigitsCore 10 fuel2 n [] := by
  induction n using Nat.strongRecOn with
  | _ n ih =>
    intro fuel1 fuel2 h1 h2
    obtain ⟨f1, rfl⟩ : ∃ f, fuel1 = f + 1 := ⟨fuel1 - 1, by omega⟩
    obtain ⟨f2, rfl⟩ : ∃ f, fuel2 = f + 1 := ⟨fuel2 - 1, by omega⟩
    simp only [Nat.toDigitsCore]
    split
    · rfl
    · rename_i hne
      have hlt : n / 10 < n := by omega
      rw [toDigitsCore_append f1, toDigitsCore_append f2,
        ih (n / 10) hlt f1 f2 (by omega) (by omega)]

theorem toDigits_step (n : Nat) :
    Nat.toDigits 10 n =
      if n < 10 then [Nat.digitChar n]
      else Nat.toDigits 10 (n / 10) ++ [Nat.digitChar (n % 10)] := by
  unfold Nat.toDigits
  rw [Nat.toDigitsCore]
  by_cases h : n < 10
  · have h0 : n / 10 = 0 := by omega
    have h1 : n % 10 = n := by omega
    simp [h, h0, h1]
  · have h0 : ¬ n / 10 = 0 := by omega
    simp only [h0, h, if_false]
    rw [toDigitsCore_append, toDigitsCore_fuel (n / 10) n (n / 10 + 1) (by omega) (by omega)]

theorem digitChar_spec (m : Nat) (h : m < 10) :
    isAsciiDigit (Nat.digitChar m) = true ∧ digitValue (Nat.digitChar m) = m := by
  interval_cases m <;> exact ⟨by decide, by decide⟩

theorem toDigits_ne_nil (n : Nat) : Nat.toDigits 10 n ≠ [] := by
  rw [toDigits_step]
  split <;> simp

theorem toDigits_all_digits (n : Nat) : ∀ c ∈ Nat.toDigits 10 n, isAsciiDigit c = true := by
  induction n using Nat.strongRecOn with
  | _ n ih =>
    intro c hc
    rw [toDigits_step] at hc
    split at hc
    · rename_i h
      simp only [List.mem_singleton] at hc
      subst hc
      exact (digitChar_spec n h).1
    · simp only [List.mem_append, List.mem_singleton] at hc
      rcases hc with hc | hc
      · exact ih (n / 10) (by omega) c hc
      · subst hc
        exact (digitChar_spec (n % 10) (by omega)).1

theorem toDigits_value (n : Nat) :
    (Nat.toDigits 10 n).foldl (fun acc d => 10 * acc + digitValue d) 0 = n := by
  induction n using Nat.strongRecOn with
  | _ n ih =>
    rw [toDigits_step]
    split
    · rename_i h
      simp [(digitChar_spec n h).2]
    · rw [List.foldl_append, ih (n / 10) (by omega)]
      simp only [List.foldl_cons, List.foldl_nil, (digitChar_spec (n % 10) (by omega)).2]
      omega

/-- A decimal digit is neither white space, nor a sign, nor `%`, `x` or
`X`, and case folding leaves it alone. -/
theorem isAsciiDigit_facts (c : Char) (h : isAsciiDigit c = true) :
    isSpace c = false ∧ c ≠ '%' ∧ c ≠ 'x' ∧ c ≠ 'X' ∧ c ≠ '+' ∧ c ≠ '-' ∧
      c ≠ Char.ofNat 0x2212 ∧ c ≠ 'm' ∧ foldCase c = c := by
  have hn : 48 ≤ c.toNat ∧ c.toNat ≤ 57 := by
    simpa [isAsciiDigit] using h
  have hne : ∀ d : Char, ¬ (48 ≤ d.toNat ∧ d.toNat ≤ 57) → c ≠ d := by
    intro d hd e
    exact hd (e ▸ hn)
  refine ⟨?_, hne _ (by decide), hne _ (by decide), hne _ (by decide), hne _ (by decide),
    hne _ (by decide), hne _ (by decide), hne _ (by decide), ?_⟩
  · simp only [isSpace, Bool.or_eq_false_iff, beq_eq_false_iff_ne, Bool.and_eq_false_iff,
      decide_eq_false_iff_not, ne_eq]
    omega
  · simp only [foldCase]
    split_ifs <;> first | rfl | omega

/-! ## Lemmas on `arg` -/

theorem scanArg_plain_append (p t : QString) (hp : ∀ c ∈ p, c ≠ '%') :
    scanArg ScanState.plain (p ++ t) = p.map ArgToken.lit ++ scanArg ScanState.plain t := by
  induction p with
  | nil => rfl
  | cons c rest ih =>
    have hc : c ≠ '%' := hp c (List.mem_cons_self _ _)
    have hrest : ∀ d ∈ rest, d ≠ '%' := fun d hd => hp d (List.mem_cons_of_mem _ hd)
    simp [scanArg, hc, ih hrest]

theorem lowestMarker_lit_append (p : QString) (ts : List ArgToken) :
    lowestMarker (p.map ArgToken.lit ++ ts) = lowestMarker ts := by
  induction p with
  | nil => rfl
  | cons c rest ih => simpa [lowestMarker] using ih

theorem substituteMarker_lit_append (n : Nat) (a p : QString) (ts : List ArgToken) :
    substituteMarker n a (p.map ArgToken.lit ++ ts) = p ++ substituteMarker n a ts := by
  induction p with
  | nil => rfl
  | cons c rest ih => simpa [substituteMarker] using ih

/-- A piece of text without `%` in front of a format string is copied by
`arg`. -/
theorem arg_append (p t a : QString) (hp : ∀ c ∈ p, c ≠ '%') :
    arg (p ++ t) a = p ++ arg t a := by
  unfold arg argTokens
  rw [scanArg_plain_append p t hp, lowestMarker_lit_append]
  cases lowestMarker (scanArg ScanState.plain t) with
  | none => rfl
  | some n => exact substituteMarker_lit_append n a p _

theorem toDigits_no_percent (n : Nat) : ∀ c ∈ Nat.toDigits 10 n, c ≠ '%' :=
  fun c hc => (isAsciiDigit_facts c (toDigits_all_digits n c hc)).2.1

theorem number_of_nonneg (n : Int) (h : 0 ≤ n) : number n = Nat.toDigits 10 n.toNat := by
  simp [number, not_lt.2 h]

/-- The label format of a preset, filled in with three numbers. -/
theorem arg_resolution_format (h w h2 : Nat) :
    arg (arg (arg (tr "%1p (%2 x %3)") (Nat.toDigits 10 h)) (Nat.toDigits 10 w))
        (Nat.toDigits 10 h2) =
      Nat.toDigits 10 h ++ "p (".toList ++ Nat.toDigits 10 w ++ " x ".toList ++
        Nat.toDigits 10 h2 ++ ")".toList := by
  have e1 : arg (tr "%1p (%2 x %3)") (Nat.toDigits 10 h) =
      Nat.toDigits 10 h ++ "p (%2 x %3)".toList := rfl
  have e2 : arg ("p (%2 x %3)".toList) (Nat.toDigits 10 w) =
      "p (".toList ++ (Nat.toDigits 10 w ++ " x %3)".toList) := rfl
  have e3 : arg (" x %3)".toList) (Nat.toDigits 10 h2) =
      " x ".toList ++ (Nat.toDigits 10 h2 ++ ")".toList) := rfl
  rw [e1, arg_append _ _ _ (toDigits_no_percent h), e2, ← List.append_assoc,
    ← List.append_assoc, arg_append _ _ _ ?_, e3]
  · simp only [List.append_assoc]
  · intro c hc
    simp only [List.mem_append] at hc
    rcases hc with (hc | hc) | hc
    · exact toDigits_no_percent h c hc
    · revert c
      decide
    · exact toDigits_no_percent w c hc

/-- The label format of a custom entry, filled in with two numbers. -/
theorem arg_custom_format (w h : Nat) :
    arg (arg (tr "Custom (%1 x %2)") (Nat.toDigits 10 w)) (Nat.toDigits 10 h) =
      "Custom (".toList ++ Nat.toDigits 10 w ++ " x ".toList ++ Nat.toDigits 10 h ++
        ")".toList := by
  have e1 : arg (tr "Custom (%1 x %2)") (Nat.toDigits 10 w) =
      "Custom (".toList ++ (Nat.toDigits 10 w ++ " x %2)".toList) := rfl
  have e2 : arg (" x %2)".toList) (Nat.toDigits 10 h) =
      " x ".toList ++ (Nat.toDigits 10 h ++ ")".toList) := rfl
  rw [e1, ← List.append_assoc, arg_append _ _ _ ?_, e2]
  · simp only [List.append_assoc]
  · intro c hc
    simp only [List.mem_append] at hc
    rcases hc with hc | hc
    · revert c
      decide
    · exact toDigits_no_percent w c hc

/-! ## Lemmas on keys made of decimal digits -/

theorem digits_head (d : QString) (hd : ∀ c ∈ d, isAsciiDigit c = true) (c : Char)
    (h : d.head? = some c) : isAsciiDigit c = true :=
  hd c (List.mem_of_mem_head? h)

theorem digits_getLast (d : QString) (hd : ∀ c ∈ d, isAsciiDigit c = true) (c : Char)
    (h : d.getLast? = some c) : isAsciiDigit c = true :=
  hd c (List.mem_of_getLast?_eq_some h)

theorem trimmed_digits (d : QString) (hd : ∀ c ∈ d, isAsciiDigit c = true) : trimmed d = d :=
  trimmed_eq_self d (fun c h => (isAsciiDigit_facts c (digits_head d hd c h)).1)
    (fun c h => (isAsciiDigit_facts c (digits_getLast d hd c h)).1)

/-- Reading a non-empty run of digits: `toInt` accepts it when the value
fits an `int`. -/
theorem toInt_digits (d : QString) (hne : d ≠ []) (hd : ∀ c ∈ d, isAsciiDigit c = true)
    (hfit : d.foldl (fun acc c => 10 * acc + digitValue c) 0 ≤ 2147483647) :
    toInt d = (((d.foldl (fun acc c => 10 * acc + digitValue c) 0 : Nat) : Int), true) := by
  unfold toInt
  rw [trimmed_digits d hd]
  obtain ⟨c, rest, rfl⟩ := List.exists_cons_of_ne_nil hne
  have hc := isAsciiDigit_facts c (hd c (List.mem_cons_self _ _))
  have hall : (c :: rest).all isAsciiDigit = true := List.all_eq_true.2 hd
  have hplus : ¬ ((c :: rest).head? = some '+' ∨
      ((c :: rest).head? = some '-' ∨ (c :: rest).head? = some (Char.ofNat 0x2212))) := by
    simp only [List.head?_cons, Option.some.injEq, not_or]
    exact ⟨hc.2.2.2.2.1, hc.2.2.2.2.2.1, hc.2.2.2.2.2.2.1⟩
  have hminus : ¬ ((c :: rest).head? = some '-' ∨
      (c :: rest).head? = some (Char.ofNat 0x2212)) := fun h => hplus (Or.inr h)
  have hcond : ¬ ((c :: rest) = [] ∨ (c :: rest).all isAsciiDigit = false) := by
    simp [hall]
  have hrange : (-2147483648 : Int) ≤
      ((List.foldl (fun acc c => 10 * acc + digitValue c) 0 (c :: rest) : Nat) : Int) ∧
      ((List.foldl (fun acc c => 10 * acc + digitValue c) 0 (c :: rest) : Nat) : Int) ≤
        2147483647 := by
    constructor
    · have := Int.natCast_nonneg (List.foldl (fun acc c => 10 * acc + digitValue c) 0 (c :: rest))
      omega
    · exact_mod_cast hfit
  simp only [if_neg hplus, if_neg hminus, if_neg hcond, if_pos hrange]

theorem toInt_toDigits (n : Nat) (h : n ≤ 2147483647) :
    toInt (Nat.toDigits 10 n) = ((n : Int), true) := by
  have := toInt_digits (Nat.toDigits 10 n) (toDigits_ne_nil n) (toDigits_all_digits n)
    (by rw [toDigits_value]; exact h)
  rw [toDigits_value] at this
  exact this

theorem indexOfFrom_append (c : Char) (p t : QString) (start : Int) (hp : c ∉ p) :
    indexOfFrom c (p ++ c :: t) start = start + p.length := by
  induction p generalizing start with
  | nil => simp [indexOfFrom]
  | cons d rest ih =>
    simp only [List.mem_cons, not_or] at hp
    have h1 : ¬ d = c := fun e => hp.1 e.symm
    have hrest := ih (start + 1) hp.2
    rw [List.cons_append, indexOfFrom, if_neg h1, hrest, List.length_cons]
    push_cast
    ring

/-- The key made of two runs of digits around an `x` or an `X`: what
`resolutionSizeForKey` sees of it. -/
theorem digits_key_parts (a b : QString) (sep : Char) (hsep : sep = 'x' ∨ sep = 'X')
    (hane : a ≠ []) (ha : ∀ c ∈ a, isAsciiDigit c = true)
    (hbne : b ≠ []) (hb : ∀ c ∈ b, isAsciiDigit c = true) :
    a ++ sep :: b ≠ [] ∧ equalsIgnoreCase (a ++ sep :: b) "match".toList = false ∧
      replaceChar 'X' 'x' (trimmed (a ++ sep :: b)) = a ++ 'x' :: b ∧
      indexOf (a ++ 'x' :: b) 'x' = a.length ∧
      left (a ++ 'x' :: b) a.length = a ∧ mid (a ++ 'x' :: b) (a.length + 1) = b := by
  refine ⟨by simp, ?_, ?_, ?_, ?_, ?_⟩
  · obtain ⟨c, rest, rfl⟩ := List.exists_cons_of_ne_nil hane
    have hc := isAsciiDigit_facts c (ha c (List.mem_cons_self _ _))
    simp only [equalsIgnoreCase, List.cons_append, List.map_cons, hc.2.2.2.2.2.2.2.2]
    have hne : c ≠ 'm' := hc.2.2.2.2.2.2.2.1
    have : ¬ (c :: List.map foldCase (rest ++ sep :: b)) = "match".toList := by
      intro e
      exact hne (List.cons.inj e).1
    simpa using this
  · have htrim : trimmed (a ++ sep :: b) = a ++ sep :: b := by
      apply trimmed_eq_self
      · intro c h
        obtain ⟨d, rest, rfl⟩ := List.exists_cons_of_ne_nil hane
        simp only [List.cons_append, List.head?_cons, Option.some.injEq] at h
        subst h
        exact (isAsciiDigit_facts _ (ha _ (List.mem_cons_self _ _))).1
      · intro c h
        have hlast : (a ++ sep :: b).getLast? = b.getLast? := by
          obtain ⟨d, rest, rfl⟩ := List.exists_cons_of_ne_nil hbne
          rw [List.getLast?_append, List.getLast?_cons_cons]
          cases hl : (d :: rest).getLast? with
          | none => simp at hl
          | some x => rfl
        rw [hlast] at h
        exact (isAsciiDigit_facts c (digits_getLast b hb c h)).1
    have hmap : ∀ d : QString, (∀ c ∈ d, isAsciiDigit c = true) → replaceChar 'X' 'x' d = d := by
      intro d hd
      unfold replaceChar
      conv_rhs => rw [← List.map_id d]
      apply List.map_congr_left
      intro c hc
      simp [(isAsciiDigit_facts c (hd c hc)).2.2.2.1]
    have hrep : replaceChar 'X' 'x' (a ++ sep :: b) =
        replaceChar 'X' 'x' a ++ (if sep = 'X' then 'x' else sep) :: replaceChar 'X' 'x' b := by
      simp [replaceChar]
    rw [htrim, hrep, hmap a ha, hmap b hb]
    rcases hsep with h | h <;> subst h <;> rfl
  · have hnot : 'x' ∉ a := fun hm => (isAsciiDigit_facts _ (ha _ hm)).2.2.1 rfl
    rw [indexOf, indexOfFrom_append 'x' a b 0 hnot, zero_add]
  · unfold left
    have hnot : ¬ (((a.length : Nat) : Int) < 0 ∨
        (((a ++ 'x' :: b).length : Nat) : Int) ≤ ((a.length : Nat) : Int)) := by
      rw [List.length_append, List.length_cons]
      push_cast
      omega
    rw [if_neg hnot, Int.toNat_ofNat, List.take_left']
    rfl
  · unfold mid
    have : ((a.length : Int) + 1).toNat = a.length + 1 := by omega
    rw [this, List.drop_append_eq_append_drop]
    simp

/-! ## Lemmas on the combo box -/

theorem findDataFrom_not_mem (data : QString) (items : List (QString × QString)) (start : Int)
    (h : data ∉ items.map Prod.snd) : findDataFrom data items start = -1 := by
  induction items generalizing start with
  | nil => rfl
  | cons item rest ih =>
    simp only [List.map_cons, List.mem_cons, not_or] at h
    have h1 : ¬ item.2 = data := fun e => h.1 e.symm
    simp only [findDataFrom, h1, if_false]
    exact ih _ h.2

/-- When the data is among the items, `findDataFrom` gives the position of
an item that holds it. -/
theorem findDataFrom_mem (data : QString) (items : List (QString × QString)) (start : Int)
    (h : data ∈ items.map Prod.snd) :
    start ≤ findDataFrom data items start ∧
      findDataFrom data items start < start + items.length ∧
      ∃ text, items.get? (findDataFrom data items start - start).toNat = some (text, data) := by
  induction items generalizing start with
  | nil => simp at h
  | cons item rest ih =>
    by_cases h1 : item.2 = data
    · simp only [findDataFrom, h1, if_true, List.length_cons]
      refine ⟨le_refl _, by push_cast; omega, item.1, ?_⟩
      simp [← h1]
    · simp only [List.map_cons, List.mem_cons] at h
      have hrest : data ∈ rest.map Prod.snd := by
        rcases h with h | h
        · exact absurd h.symm h1
        · exact h
      obtain ⟨ha, hb, text, hc⟩ := ih (start + 1) hrest
      simp only [findDataFrom, h1, if_false, List.length_cons]
      refine ⟨by omega, by push_cast; omega, text, ?_⟩
      have hidx : (findDataFrom data rest (start + 1) - start).toNat =
          (findDataFrom data rest (start + 1) - (start + 1)).toNat + 1 := by omega
      rw [hidx, List.get?_cons_succ]
      exact hc

theorem findDataFrom_append_new (data text : QString) (items : List (QString × QString))
    (start : Int) (h : data ∉ items.map Prod.snd) :
    findDataFrom data (items ++ [(text, data)]) start = start + items.length := by
  induction items generalizing start with
  | nil => simp [findDataFrom]
  | cons item rest ih =>
    simp only [List.map_cons, List.mem_cons, not_or] at h
    have h1 : ¬ item.2 = data := fun e => h.1 e.symm
    have hrest := ih (start + 1) h.2
    rw [List.cons_append, findDataFrom, if_neg h1, hrest, List.length_cons]
    push_cast
    ring

theorem findData_nonneg_iff (c : QComboBox) (data : QString) :
    0 ≤ c.findData data ↔ data ∈ c.items.map Prod.snd := by
  unfold QComboBox.findData
  constructor
  · intro h
    by_contra hn
    rw [findDataFrom_not_mem _ _ _ hn] at h
    omega
  · intro h
    exact (findDataFrom_mem _ _ 0 h).1

theorem findData_lt_count (c : QComboBox) (data : QString) : c.findData data < c.count := by
  unfold QComboBox.findData QComboBox.count
  by_cases h : data ∈ c.items.map Prod.snd
  · have := (findDataFrom_mem _ _ 0 h).2.1
    omega
  · rw [findDataFrom_not_mem _ _ _ h]
    omega

/-- The item `findData` points at holds the data looked for. -/
theorem findData_get (c : QComboBox) (data : QString) (h : 0 ≤ c.findData data) :
    ∃ text, c.items.get? (c.findData data).toNat = some (text, data) := by
  have hmem := (findData_nonneg_iff c data).1 h
  obtain ⟨_, _, text, ht⟩ := findDataFrom_mem data c.items 0 hmem
  rw [sub_zero] at ht
  exact ⟨text, ht⟩

theorem setCurrentIndex_blocked (items : List (QString × QString)) (current index : Int) :
    QComboBox.setCurrentIndex ⟨items, current, true⟩ index =
      (⟨items, if 0 ≤ index ∧ index < items.length then index else -1, true⟩, []) := by
  simp only [QComboBox.setCurrentIndex, QComboBox.count]
  split_ifs <;> simp_all

theorem addItem_blocked (items : List (QString × QString)) (current : Int)
    (text data : QString) :
    QComboBox.addItem ⟨items, current, true⟩ text data =
      (⟨items ++ [(text, data)], if items = [] then 0 else current, true⟩, []) := by
  unfold QComboBox.addItem
  dsimp only
  split
  · rename_i h
    subst h
    rw [setCurrentIndex_blocked]
    simp
  · rfl

/-- What `setResolutionKey` does to a widget whose combo box exists: it
emits nothing, clears the `signalsBlocked` flag, and selects the first item
holding the key, or else a new last item made for a key of valid size, or
else the first item holding "match", or else leaves the selection. -/
theorem setResolutionKey_eq (w : OutputSettingsWidget) (combo : QComboBox) (key : QString)
    (h : w.m_resolutionCombo = some combo) :
    w.setResolutionKey key =
      (⟨w.m_enableCheckbox, w.m_deviceEdit, some
          (if 0 ≤ combo.findData key then
            ⟨combo.items, combo.findData key, false⟩
          else if (resolutionSizeForKey key).isValid = true then
            ⟨combo.items ++
              [(arg (arg (tr "Custom (%1 x %2)") (number (resolutionSizeForKey key).width))
                (number (resolutionSizeForKey key).height), key)],
              combo.items.length, false⟩
          else if 0 ≤ combo.findData "match".toList then
            ⟨combo.items, combo.findData "match".toList, false⟩
          else
            ⟨combo.items, combo.currentIndex, false⟩)⟩, []) := by
  obtain ⟨m1, m2, m3⟩ := w
  simp only at h
  subst h
  obtain ⟨items, current, blocked⟩ := combo
  unfold OutputSettingsWidget.setResolutionKey
  generalize "match".toList = sentinel
  simp only [QComboBox.blockSignals]
  have hfd : ∀ (b : Bool) (i : Int) (d : QString),
      QComboBox.findData ⟨items, i, b⟩ d = findDataFrom d items 0 :=
    fun _ _ _ => rfl
  simp only [hfd]
  have hlt : ∀ d, findDataFrom d items 0 < items.length :=
    fun d => findData_lt_count ⟨items, current, blocked⟩ d
  by_cases h1 : 0 ≤ findDataFrom key items 0
  · have h1b : ¬ findDataFrom key items 0 < 0 := not_lt.2 h1
    simp only [h1, h1b, if_true, if_false, setCurrentIndex_blocked, hlt, and_self]
    simp
  · have h1b : findDataFrom key items 0 < 0 := not_le.1 h1
    simp only [h1, h1b, if_true, if_false]
    by_cases h2 : (resolutionSizeForKey key).isValid = true
    · simp only [h2, if_true, addItem_blocked, setCurrentIndex_blocked, QComboBox.count]
      simp
    · simp only [h2, if_false, Bool.false_eq_true]
      by_cases h3 : 0 ≤ findDataFrom sentinel items 0
      · simp only [h3, if_true, setCurrentIndex_blocked, hlt, and_self]
        simp
      · simp [h3]

/-! ## Lemmas on the load setters -/

theorem setVirtualCameraEnabled_eq (w : OutputSettingsWidget) (enabled : Bool) :
    w.setVirtualCameraEnabled enabled =
      (⟨w.m_enableCheckbox.map (fun _ => ⟨enabled, false⟩), w.m_deviceEdit,
        w.m_resolutionCombo⟩, []) := by
  obtain ⟨m1, m2, m3⟩ := w
  cases m1 with
  | none => rfl
  | some checkbox =>
    obtain ⟨checked, blocked⟩ := checkbox
    simp only [OutputSettingsWidget.setVirtualCameraEnabled, QCheckBox.blockSignals,
      QCheckBox.setChecked]
    by_cases h : checked = enabled
    · simp [h]
    · simp [h]

theorem setDevicePath_eq (w : OutputSettingsWidget) (path : QString) :
    w.setDevicePath path =
      (⟨w.m_enableCheckbox,
        w.m_deviceEdit.map (fun _ => ⟨leftUnits QLineEdit.defaultMaxLength path, false⟩),
        w.m_resolutionCombo⟩, []) := by
  obtain ⟨m1, m2, m3⟩ := w
  cases m2 with
  | none => rfl
  | some edit => rfl

/-- The setter `setResolutionKey` emits nothing, leaves the check box and the
line edit alone, keeps the combo box null or not, and clears its
`signalsBlocked` flag. -/
theorem setResolutionKey_frame (w : OutputSettingsWidget) (key : QString) :
    (w.setResolutionKey key).2 = [] ∧
      (w.setResolutionKey key).1.m_enableCheckbox = w.m_enableCheckbox ∧
      (w.setResolutionKey key).1.m_deviceEdit = w.m_deviceEdit ∧
      (w.setResolutionKey key).1.m_resolutionCombo.map QComboBox.signalsBlocked =
        w.m_resolutionCombo.map (fun _ => false) := by
  cases h : w.m_resolutionCombo with
  | none => simp [OutputSettingsWidget.setResolutionKey, h]
  | some combo =>
    rw [setResolutionKey_eq w combo key h]
    refine ⟨rfl, rfl, rfl, ?_⟩
    simp only [Option.map_some', Option.some.injEq]
    split_ifs <;> rfl

/-- The combo box `setResolutionKey` leaves depends on the combo box
alone. -/
theorem setResolutionKey_congr (w w2 : OutputSettingsWidget) (key : QString)
    (h : w.m_resolutionCombo = w2.m_resolutionCombo) :
    (w.setResolutionKey key).1.m_resolutionCombo =
      (w2.setResolutionKey key).1.m_resolutionCombo := by
  cases hc : w.m_resolutionCombo with
  | none =>
    have hc2 : w2.m_resolutionCombo = none := by rw [← h, hc]
    simp [OutputSettingsWidget.setResolutionKey, hc, hc2]
  | some combo =>
    have hc2 : w2.m_resolutionCombo = some combo := by rw [← h, hc]
    rw [setResolutionKey_eq w combo key hc, setResolutionKey_eq w2 combo key hc2]

/-- Setting the same resolution key a second time changes nothing. -/
theorem setResolutionKey_idem (w : OutputSettingsWidget) (key : QString) :
    ((w.setResolutionKey key).1.setResolutionKey key).1 = (w.setResolutionKey key).1 := by
  cases h : w.m_resolutionCombo with
  | none => simp [OutputSettingsWidget.setResolutionKey, h]
  | some combo =>
    rw [setResolutionKey_eq w combo key h]
    generalize hs : "match".toList = sentinel
    by_cases h1 : 0 ≤ combo.findData key
    · simp only [h1, if_true]
      rw [setResolutionKey_eq _ ⟨combo.items, combo.findData key, false⟩ key rfl]
      have e1 : QComboBox.findData ⟨combo.items, combo.findData key, false⟩ key =
          combo.findData key := rfl
      simp only [e1, h1, if_true]
    · simp only [h1, if_false]
      have hnot : key ∉ combo.items.map Prod.snd := fun hm =>
        h1 ((findData_nonneg_iff combo key).2 hm)
      by_cases h2 : (resolutionSizeForKey key).isValid = true
      · simp only [h2, if_true]
        rw [setResolutionKey_eq _ _ key rfl]
        have e1 : ∀ text, QComboBox.findData
            ⟨combo.items ++ [(text, key)], combo.items.length, false⟩ key =
              combo.items.length := by
          intro text
          simp only [QComboBox.findData, findDataFrom_append_new key text combo.items 0 hnot,
            zero_add]
        simp only [e1, Int.natCast_nonneg, if_true]
      · simp only [h2, if_false, Bool.false_eq_true]
        by_cases h3 : 0 ≤ combo.findData sentinel
        · simp only [h3, if_true]
          rw [setResolutionKey_eq _ ⟨combo.items, combo.findData sentinel, false⟩ key rfl]
          have e1 : ∀ d, QComboBox.findData ⟨combo.items, combo.findData sentinel, false⟩ d =
              combo.findData d := fun _ => rfl
          simp only [e1, h1, h2, hs, h3, if_true, if_false, Bool.false_eq_true]
        · simp only [h3, if_false]
          rw [setResolutionKey_eq _ ⟨combo.items, combo.currentIndex, false⟩ key rfl]
          have e1 : ∀ d, QComboBox.findData ⟨combo.items, combo.currentIndex, false⟩ d =
              combo.findData d := fun _ => rfl
          simp only [e1, h1, h2, hs, h3, if_false, Bool.false_eq_true]

/-! ## Lemmas on reachable widgets -/

/-- A valid size given by `resolutionSizeForKey` is positive. -/
theorem resolutionSizeForKey_pos (key : QString)
    (h : (resolutionSizeForKey key).isValid = true) :
    0 < (resolutionSizeForKey key).width ∧ 0 < (resolutionSizeForKey key).height := by
  rw [resolutionSizeForKey_eq] at h ⊢
  split_ifs at h ⊢ with h1 h2 h3
  · exact absurd h (by decide)
  · exact absurd h (by decide)
  · exact absurd h (by decide)
  · simp only [not_or, not_le] at h3
    exact ⟨h3.2.2.1, h3.2.2.2⟩

/-- The label `setResolutionKey` makes for a key of valid size. -/
theorem custom_label_eq (key : QString) (h : (resolutionSizeForKey key).isValid = true) :
    arg (arg (tr "Custom (%1 x %2)") (number (resolutionSizeForKey key).width))
        (number (resolutionSizeForKey key).height) =
      "Custom (".toList ++ (Nat.repr (resolutionSizeForKey key).width.toNat).toList ++
        " x ".toList ++ (Nat.repr (resolutionSizeForKey key).height.toNat).toList ++
        ")".toList := by
  obtain ⟨hw, hh⟩ := resolutionSizeForKey_pos key h
  rw [number_of_nonneg _ hw.le, number_of_nonneg _ hh.le, arg_custom_format]
  rfl

/-- The combo box of a reachable widget: the preset items in table order,
then items made by `setResolutionKey` for keys of valid size. -/
theorem reachable_combo (w : OutputSettingsWidget) (hw : Reachable w) :
    ∃ combo extras, w.m_resolutionCombo = some combo ∧
      combo.items =
        kVirtualCameraResolutionPresets.map
          (fun p => (buildResolutionLabel p, p.key.toList)) ++ extras ∧
      ∀ e ∈ extras, (resolutionSizeForKey e.2).isValid = true ∧
        e.1 = arg (arg (tr "Custom (%1 x %2)") (number (resolutionSizeForKey e.2).width))
          (number (resolutionSizeForKey e.2).height) := by
  induction hw with
  | construct =>
    exact ⟨_, [], rfl, by decide, by simp⟩
  | setVirtualCameraEnabled w enabled _ ih =>
    rw [setVirtualCameraEnabled_eq]
    exact ih
  | setDevicePath w path _ ih =>
    rw [setDevicePath_eq]
    exact ih
  | setResolutionKey w key _ ih =>
    obtain ⟨combo, extras, hc, hitems, hex⟩ := ih
    rw [setResolutionKey_eq w combo key hc]
    by_cases h1 : 0 ≤ combo.findData key
    · rw [if_pos h1]
      exact ⟨_, extras, rfl, hitems, hex⟩
    · rw [if_neg h1]
      by_cases h2 : (resolutionSizeForKey key).isValid = true
      · rw [if_pos h2]
        refine ⟨_, extras ++
          [(arg (arg (tr "Custom (%1 x %2)") (number (resolutionSizeForKey key).width))
            (number (resolutionSizeForKey key).height), key)], rfl, ?_, ?_⟩
        · simp only [hitems, List.append_assoc]
        · intro e he
          rcases List.mem_append.1 he with he | he
          · exact hex e he
          · rw [List.mem_singleton.1 he]
            exact ⟨h2, rfl⟩
      · rw [if_neg h2]
        by_cases h3 : 0 ≤ combo.findData "match".toList
        · rw [if_pos h3]
          exact ⟨_, extras, rfl, hitems, hex⟩
        · rw [if_neg h3]
          exact ⟨_, extras, rfl, hitems, hex⟩

/-- The key of a preset is "match" or has a positive size. -/
theorem preset_key_cases (k : QString)
    (h : k ∈ kVirtualCameraResolutionPresets.map (fun p => p.key.toList)) :
    k = "match".toList ∨
      (resolutionSizeForKey k).isValid = true := by
  revert k
  decide

theorem current_of_get (items : List (QString × QString)) (index : Int) (blocked : Bool)
    (text data : QString) (h0 : 0 ≤ index) (hg : items.get? index.toNat = some (text, data)) :
    QComboBox.currentData ⟨items, index, blocked⟩ = data ∧
      QComboBox.currentText ⟨items, index, blocked⟩ = text := by
  simp only [QComboBox.currentData, QComboBox.currentText, not_lt.2 h0, if_false, hg, and_self]

/-- What is selected after `setResolutionKey k` on a reachable widget: an
item holding `k`, which is a preset item or a custom item labelled for the
size of `k`; or, when `k` is no preset key and has no valid size, an item
holding "match". -/
theorem setResolutionKey_reachable_cases (w : OutputSettingsWidget) (hw : Reachable w)
    (k : QString) :
    ∃ combo, (w.setResolutionKey k).1.m_resolutionCombo = some combo ∧
      0 ≤ combo.currentIndex ∧
      ((combo.currentData = k ∧
          (k ∈ kVirtualCameraResolutionPresets.map (fun p => p.key.toList) ∨
            ((resolutionSizeForKey k).isValid = true ∧
              combo.currentText =
                arg (arg (tr "Custom (%1 x %2)") (number (resolutionSizeForKey k).width))
                  (number (resolutionSizeForKey k).height)))) ∨
        (combo.currentData = "match".toList ∧
          k ∉ kVirtualCameraResolutionPresets.map (fun p => p.key.toList) ∧
          (resolutionSizeForKey k).isValid = false)) := by
  obtain ⟨combo, extras, hc, hitems, hex⟩ := reachable_combo w hw
  have hkeys : ∀ d, d ∈ kVirtualCameraResolutionPresets.map (fun p => p.key.toList) →
      d ∈ combo.items.map Prod.snd := by
    intro d hd
    rw [hitems, List.map_append, List.map_map]
    exact List.mem_append_left _ hd
  have hitem : ∀ text d, (text, d) ∈ combo.items →
      d ∈ kVirtualCameraResolutionPresets.map (fun p => p.key.toList) ∨
        ((resolutionSizeForKey d).isValid = true ∧
          text = arg (arg (tr "Custom (%1 x %2)") (number (resolutionSizeForKey d).width))
            (number (resolutionSizeForKey d).height)) := by
    intro text d hmem
    rw [hitems] at hmem
    rcases List.mem_append.1 hmem with hm | hm
    · left
      obtain ⟨p, hp, he⟩ := List.mem_map.1 hm
      exact List.mem_map.2 ⟨p, hp, (Prod.mk.inj he).2⟩
    · right
      exact hex (text, d) hm
  rw [setResolutionKey_eq w combo k hc]
  by_cases h1 : 0 ≤ combo.findData k
  · rw [if_pos h1]
    obtain ⟨text, hg⟩ := findData_get combo k h1
    obtain ⟨hd, ht⟩ := current_of_get combo.items _ false text k h1 hg
    refine ⟨_, rfl, h1, Or.inl ⟨hd, ?_⟩⟩
    rw [ht]
    exact hitem text k (List.get?_mem hg)
  · rw [if_neg h1]
    have hnot : k ∉ combo.items.map Prod.snd := fun hm =>
      h1 ((findData_nonneg_iff combo k).2 hm)
    by_cases h2 : (resolutionSizeForKey k).isValid = true
    · rw [if_pos h2]
      have hg : (combo.items ++
          [(arg (arg (tr "Custom (%1 x %2)") (number (resolutionSizeForKey k).width))
            (number (resolutionSizeForKey k).height), k)]).get?
            ((combo.items.length : Nat) : Int).toNat =
          some (arg (arg (tr "Custom (%1 x %2)") (number (resolutionSizeForKey k).width))
            (number (resolutionSizeForKey k).height), k) := by
        rw [Int.toNat_ofNat, List.get?_eq_getElem?]
        exact List.getElem?_concat_length _ _
      obtain ⟨hd, ht⟩ := current_of_get _ _ false _ k (Int.natCast_nonneg _) hg
      exact ⟨_, rfl, Int.natCast_nonneg _, Or.inl ⟨hd, Or.inr ⟨h2, ht⟩⟩⟩
    · rw [if_neg h2]
      have h3 : 0 ≤ combo.findData "match".toList :=
        (findData_nonneg_iff combo _).2 (hkeys _ (by decide))
      rw [if_pos h3]
      obtain ⟨text, hg⟩ := findData_get combo "match".toList h3
      obtain ⟨hd, _⟩ := current_of_get combo.items _ false text _ h3 hg
      refine ⟨_, rfl, h3, Or.inr ⟨hd, fun hp => hnot (hkeys k hp), ?_⟩⟩
      simpa using h2

/-! ## Theorems on `resolutionSizeForKey` -/

/-- C2: `resolutionSizeForKey` gives `QSize()` for every key that is empty,
or equals "match" ignoring case, or whose trimmed form with `X` replaced by
`x` has no `x`, or starts with `x`, or has around its first `x` a half that
`toInt` rejects or reads as a value that is not positive; the eight example
keys all give `QSize()`; and every result other than `QSize()` has a
positive width and a positive height. -/
theorem resolutionSizeForKey_nonconforming :
    (∀ key : QString,
      (key = [] ∨ equalsIgnoreCase key "match".toList = true ∨
        'x' ∉ replaceChar 'X' 'x' (trimmed key) ∨
        (replaceChar 'X' 'x' (trimmed key)).head? = some 'x' ∨
        (toInt (left (replaceChar 'X' 'x' (trimmed key))
          (indexOf (replaceChar 'X' 'x' (trimmed key)) 'x'))).2 = false ∨
        (toInt (mid (replaceChar 'X' 'x' (trimmed key))
          (indexOf (replaceChar 'X' 'x' (trimmed key)) 'x' + 1))).2 = false ∨
        (toInt (left (replaceChar 'X' 'x' (trimmed key))
          (indexOf (replaceChar 'X' 'x' (trimmed key)) 'x'))).1 ≤ 0 ∨
        (toInt (mid (replaceChar 'X' 'x' (trimmed key))
          (indexOf (replaceChar 'X' 'x' (trimmed key)) 'x' + 1))).1 ≤ 0) →
      resolutionSizeForKey key = QSize.invalid) ∧
    (∀ key ∈ ["", "match", "MATCH", "abcxdef", "x720", "1280x-5", "1280", "12x34x56"],
      resolutionSizeForKey key.toList = QSize.invalid) ∧
    QSize.invalid.isValid = false ∧
    (∀ key : QString, resolutionSizeForKey key = QSize.invalid ∨
      (0 < (resolutionSizeForKey key).width ∧ 0 < (resolutionSizeForKey key).height)) := by
  refine ⟨?_, by decide, by decide, ?_⟩
  · intro key h
    rw [resolutionSizeForKey_eq]
    rcases h with h | h | h | h | h
    · rw [if_pos (Or.inl h)]
    · rw [if_pos (Or.inr h)]
    · have := (indexOf_nonpos_iff _ 'x').2 (Or.inl h)
      split_ifs <;> rfl
    · have := (indexOf_nonpos_iff _ 'x').2 (Or.inr h)
      split_ifs <;> rfl
    · split_ifs <;> rfl
  · intro key
    rw [resolutionSizeForKey_eq]
    split_ifs with h1 h2 h3
    · exact Or.inl rfl
    · exact Or.inl rfl
    · exact Or.inl rfl
    · right
      simp only [not_or, not_le] at h3
      exact ⟨h3.2.2.1, h3.2.2.2⟩

/-- Witness of C2 at the key "1280x-5", whose right half reads as `-5`. -/
theorem resolutionSizeForKey_nonconforming_witness :
    resolutionSizeForKey "1280x-5".toList = QSize.invalid :=
  resolutionSizeForKey_nonconforming.1 "1280x-5".toList
    (Or.inr (Or.inr (Or.inr (Or.inr (Or.inr (Or.inr (Or.inr (by decide))))))))

/-- C3: for all `w` and `h` from 1 to 2^31 - 1, `resolutionSizeForKey` reads
the decimal `w`, an `x`, and the decimal `h` as the size (w, h), and reads
the same key written with `X` as the same size; "1280x720" and "1280X720"
both give (1280, 720). -/
theorem resolutionSizeForKey_roundtrip (w h : Nat) (hw : 1 ≤ w) (hw2 : w ≤ 2147483647)
    (hh : 1 ≤ h) (hh2 : h ≤ 2147483647) :
    resolutionSizeForKey ((Nat.repr w).toList ++ "x".toList ++ (Nat.repr h).toList) =
        ⟨w, h⟩ ∧
      resolutionSizeForKey ((Nat.repr w).toList ++ "X".toList ++ (Nat.repr h).toList) =
        ⟨w, h⟩ := by
  have key : ∀ sep : Char, sep = 'x' ∨ sep = 'X' →
      resolutionSizeForKey (Nat.toDigits 10 w ++ sep :: Nat.toDigits 10 h) = ⟨w, h⟩ := by
    intro sep hsep
    obtain ⟨h1, h2, h3, h4, h5, h6⟩ := digits_key_parts (Nat.toDigits 10 w)
      (Nat.toDigits 10 h) sep hsep (toDigits_ne_nil w) (toDigits_all_digits w)
      (toDigits_ne_nil h) (toDigits_all_digits h)
    have hlen : 0 < (Nat.toDigits 10 w).length := List.length_pos.2 (toDigits_ne_nil w)
    have hcond1 : ¬ (Nat.toDigits 10 w ++ sep :: Nat.toDigits 10 h = [] ∨
        equalsIgnoreCase (Nat.toDigits 10 w ++ sep :: Nat.toDigits 10 h) "match".toList =
          true) := by
      rw [h2]
      simp
    have hcond2 : ¬ (((Nat.toDigits 10 w).length : Int) ≤ 0) := by omega
    have hcond3 : ¬ (((w : Int), true).2 = false ∨ ((h : Int), true).2 = false ∨
        ((w : Int), true).1 ≤ 0 ∨ ((h : Int), true).1 ≤ 0) := by
      simp only [Bool.true_eq_false, false_or]
      omega
    rw [resolutionSizeForKey_eq, if_neg hcond1, h3, h4, if_neg hcond2, h5, h6,
      toInt_toDigits w hw2, toInt_toDigits h hh2, if_neg hcond3]
  have e1 := key 'x' (Or.inl rfl)
  have e2 := key 'X' (Or.inr rfl)
  refine ⟨?_, ?_⟩
  · rw [List.append_assoc]
    exact e1
  · rw [List.append_assoc]
    exact e2

/-- Witness of C3 at 1280 and 720: the keys "1280x720" and "1280X720". -/
theorem resolutionSizeForKey_roundtrip_witness :
    resolutionSizeForKey "1280x720".toList = ⟨1280, 720⟩ ∧
      resolutionSizeForKey "1280X720".toList = ⟨1280, 720⟩ :=
  resolutionSizeForKey_roundtrip 1280 720 (by decide) (by decide) (by decide) (by decide)

/-! ## Theorems on the preset table and the labels -/

/-- C4: every key of the preset table is found among the data of the combo
box a new widget is built with; `resolutionSizeForKey` maps every preset key
other than the sentinel to the width and height of its entry and the
sentinel key to `QSize()`; the key "640x480" is not found in that combo box
although `resolutionSizeForKey` reads it as (640, 480). -/
theorem presets_consistent :
    ∃ combo, OutputSettingsWidget.construct.m_resolutionCombo = some combo ∧
      combo.items.map Prod.snd = kVirtualCameraResolutionPresets.map (fun p => p.key.toList) ∧
      (∀ p ∈ kVirtualCameraResolutionPresets, 0 ≤ combo.findData p.key.toList) ∧
      (∀ p ∈ kVirtualCameraResolutionPresets, ¬ (p.width = 0 ∧ p.height = 0) →
        resolutionSizeForKey p.key.toList = ⟨p.width, p.height⟩) ∧
      (∀ p ∈ kVirtualCameraResolutionPresets, p.width = 0 ∧ p.height = 0 →
        resolutionSizeForKey p.key.toList = QSize.invalid) ∧
      combo.findData "640x480".toList = -1 ∧
      resolutionSizeForKey "640x480".toList = ⟨640, 480⟩ :=
  ⟨_, rfl, by decide, by decide, by decide, by decide, by decide, by decide⟩

/-- Witness of C4 at the preset "1280x720": it is found in the combo box of
a new widget and `resolutionSizeForKey` gives its size. -/
theorem presets_consistent_witness :
    ∃ combo, OutputSettingsWidget.construct.m_resolutionCombo = some combo ∧
      0 ≤ combo.findData "1280x720".toList ∧
      resolutionSizeForKey "1280x720".toList = ⟨1280, 720⟩ := by
  obtain ⟨combo, hc, _, hfind, hsize, _⟩ := presets_consistent
  exact ⟨combo, hc, hfind ⟨"1280x720", 1280, 720⟩ (by decide),
    hsize ⟨"1280x720", 1280, 720⟩ (by decide) (by decide)⟩

/-- C9: `buildResolutionLabel` is a function of the preset alone; it gives
"Match preview resolution" for a preset of width 0 and height 0, and for a
preset of positive width and height the decimal height, "p (", the decimal
width, " x ", the decimal height and ")", as in "1080p (1920 x 1080)". -/
theorem buildResolutionLabel_spec :
    (∀ key : String, buildResolutionLabel ⟨key, 0, 0⟩ = "Match preview resolution".toList) ∧
    (∀ preset : VirtualCameraResolutionPreset, 0 < preset.width → 0 < preset.height →
      buildResolutionLabel preset =
        (Nat.repr preset.height.toNat).toList ++ "p (".toList ++
          (Nat.repr preset.width.toNat).toList ++ " x ".toList ++
          (Nat.repr preset.height.toNat).toList ++ ")".toList) ∧
    buildResolutionLabel ⟨"1920x1080", 1920, 1080⟩ = "1080p (1920 x 1080)".toList := by
  refine ⟨fun key => rfl, ?_, by decide⟩
  intro preset hw hh
  have hcond : ¬ (preset.width ≤ 0 ∨ preset.height ≤ 0) := by omega
  simp only [buildResolutionLabel, hcond, if_false, number_of_nonneg _ hw.le,
    number_of_nonneg _ hh.le, arg_resolution_format]
  rfl

/-- Witness of C9 at the preset (1280, 720). -/
theorem buildResolutionLabel_spec_witness :
    buildResolutionLabel ⟨"1280x720", 1280, 720⟩ = "720p (1280 x 720)".toList :=
  buildResolutionLabel_spec.2.1 ⟨"1280x720", 1280, 720⟩ (by decide) (by decide)

/-! ## Theorems on the device path -/

/-- The command format with the device number filled in. -/
theorem arg_modprobe_format (videoNr : QString) :
    arg (tr "sudo modprobe v4l2loopback video_nr=%1 card_label=\"OBSBOT Virtual Camera\" exclusive_caps=1")
        videoNr =
      "sudo modprobe v4l2loopback video_nr=".toList ++ videoNr ++
        " card_label=\"OBSBOT Virtual Camera\" exclusive_caps=1".toList :=
  rfl

/-- C5: when the trimmed path is "/dev/video" followed by a non-empty run of
ASCII digits and nothing else, `modprobeCommandForDevice` puts that run,
as it is, after `video_nr=`; for every other path it puts `42` there, among
them "", "/dev/video", "/dev/videoX", a relative path and a path with
trailing characters; "/dev/video7" and " /dev/video7 " both give 7. -/
theorem modprobeCommandForDevice_spec :
    (∀ p d : QString, trimmed p = "/dev/video".toList ++ d → d ≠ [] →
      (∀ c ∈ d, isAsciiDigit c = true) →
      modprobeCommandForDevice p =
        "sudo modprobe v4l2loopback video_nr=".toList ++ d ++
          " card_label=\"OBSBOT Virtual Camera\" exclusive_caps=1".toList) ∧
    (∀ p : QString,
      (¬ ∃ d : QString, trimmed p = "/dev/video".toList ++ d ∧ d ≠ [] ∧
        ∀ c ∈ d, isAsciiDigit c = true) →
      modprobeCommandForDevice p =
        "sudo modprobe v4l2loopback video_nr=42 card_label=\"OBSBOT Virtual Camera\" exclusive_caps=1".toList) ∧
    (∀ p ∈ ["", "/dev/video", "/dev/videoX", "dev/video7", "video7", "/dev/video7a",
        "/dev/video7 0", "/dev/video/7"],
      modprobeCommandForDevice p.toList =
        "sudo modprobe v4l2loopback video_nr=42 card_label=\"OBSBOT Virtual Camera\" exclusive_caps=1".toList) ∧
    (∀ p ∈ ["/dev/video7", " /dev/video7 "],
      modprobeCommandForDevice p.toList =
        "sudo modprobe v4l2loopback video_nr=7 card_label=\"OBSBOT Virtual Camera\" exclusive_caps=1".toList) := by
  refine ⟨?_, ?_, by decide, by decide⟩
  · intro p d ht hne hdig
    have hm : videoRegexMatch (trimmed p) = some d :=
      (videoRegexMatch_eq_some _ _).2 ⟨hne, hdig, Or.inl ht⟩
    simp only [modprobeCommandForDevice, hm, arg_modprobe_format]
  · intro p hno
    have hm : videoRegexMatch (trimmed p) = none := by
      cases hres : videoRegexMatch (trimmed p) with
      | none => rfl
      | some d =>
        exfalso
        obtain ⟨hne, hdig, ht | ht⟩ := (videoRegexMatch_eq_some _ _).1 hres
        · exact hno ⟨d, ht, hne, hdig⟩
        · have hlast : (trimmed p).getLast? = some '\n' := by
            rw [ht]
            exact List.getLast?_concat _
          exact absurd (trimmed_getLast p _ hlast) (by decide)
    simp only [modprobeCommandForDevice, hm, arg_modprobe_format]
    rfl

/-- Witness of C5 at the path "/dev/video12". -/
theorem modprobeCommandForDevice_spec_witness :
    modprobeCommandForDevice "/dev/video12".toList =
      "sudo modprobe v4l2loopback video_nr=12 card_label=\"OBSBOT Virtual Camera\" exclusive_caps=1".toList :=
  modprobeCommandForDevice_spec.1 "/dev/video12".toList "12".toList (by decide) (by decide)
    (by decide)

/-- C7: whatever the widget and the argument, each load setter returns with
the `signalsBlocked` flag of its control cleared (the control is there after
the call exactly when it was there before), and emits no signal during the
call. -/
theorem load_setters_lift_suspension (w : OutputSettingsWidget) (enabled : Bool)
    (path key : QString) :
    ((w.setVirtualCameraEnabled enabled).1.m_enableCheckbox.map QCheckBox.signalsBlocked =
        w.m_enableCheckbox.map (fun _ => false) ∧
      (w.setVirtualCameraEnabled enabled).2 = []) ∧
    ((w.setDevicePath path).1.m_deviceEdit.map QLineEdit.signalsBlocked =
        w.m_deviceEdit.map (fun _ => false) ∧
      (w.setDevicePath path).2 = []) ∧
    ((w.setResolutionKey key).1.m_resolutionCombo.map QComboBox.signalsBlocked =
        w.m_resolutionCombo.map (fun _ => false) ∧
      (w.setResolutionKey key).2 = []) := by
  refine ⟨?_, ?_, (setResolutionKey_frame w key).2.2.2, (setResolutionKey_frame w key).1⟩
  · rw [setVirtualCameraEnabled_eq]
    cases w.m_enableCheckbox <;> exact ⟨rfl, rfl⟩
  · rw [setDevicePath_eq]
    cases w.m_deviceEdit <;> exact ⟨rfl, rfl⟩

/-- C8: whatever the widget, applying the three load setters with the same
(enabled, devicePath, resolutionKey) a second time leaves the widget exactly
as the first application left it (check box, line edit text, combo box
items and current index), and none of the six calls emits a signal. -/
theorem load_setters_idempotent (w : OutputSettingsWidget) (enabled : Bool)
    (path key : QString) :
    let w1 := (w.setVirtualCameraEnabled enabled).1
    let w2 := (w1.setDevicePath path).1
    let once := (w2.setResolutionKey key).1
    let v1 := (once.setVirtualCameraEnabled enabled).1
    let v2 := (v1.setDevicePath path).1
    let twice := (v2.setResolutionKey key).1
    twice = once ∧
      (w.setVirtualCameraEnabled enabled).2 = [] ∧ (w1.setDevicePath path).2 = [] ∧
      (w2.setResolutionKey key).2 = [] ∧ (once.setVirtualCameraEnabled enabled).2 = [] ∧
      (v1.setDevicePath path).2 = [] ∧ (v2.setResolutionKey key).2 = [] := by
  intro w1 w2 once v1 v2 twice
  refine ⟨?_, by rw [setVirtualCameraEnabled_eq], by rw [setDevicePath_eq],
    (setResolutionKey_frame _ _).1, by rw [setVirtualCameraEnabled_eq],
    by rw [setDevicePath_eq], (setResolutionKey_frame _ _).1⟩
  have hco : v2.m_resolutionCombo = once.m_resolutionCombo := by
    simp only [v2, v1, setVirtualCameraEnabled_eq, setDevicePath_eq]
  have h3 : twice.m_resolutionCombo = once.m_resolutionCombo := by
    have := setResolutionKey_congr v2 once key hco
    rw [setResolutionKey_idem w2 key] at this
    exact this
  have h1 : twice.m_enableCheckbox = once.m_enableCheckbox := by
    simp only [twice, once, (setResolutionKey_frame _ _).2.1, v2, v1, w2, w1,
      setVirtualCameraEnabled_eq, setDevicePath_eq]
    cases w.m_enableCheckbox <;> rfl
  have h2 : twice.m_deviceEdit = once.m_deviceEdit := by
    simp only [twice, once, (setResolutionKey_frame _ _).2.2.1, v2, v1, w2, w1,
      setVirtualCameraEnabled_eq, setDevicePath_eq]
    cases w.m_deviceEdit <;> rfl
  revert h1 h2 h3
  generalize twice = a
  generalize once = b
  intro h3 h1 h2
  obtain ⟨a1, a2, a3⟩ := a
  obtain ⟨b1, b2, b3⟩ := b
  simp only at h1 h2 h3
  rw [h1, h2, h3]

/-! ## Theorems on the resolution key of the widget -/

/-- C1: on a widget reachable from a new one by the load setters, after
`setResolutionKey k` the accessor `resolutionKey` gives `k` when `k` is a
preset key or `resolutionSizeForKey k` is valid (for a key that is no preset
key, the selected item then carries `k` under the label "Custom (W x H)" of
its size), and gives "match" otherwise; so the key it gives is "match" or
has a size of positive width and height. -/
theorem resolutionKey_setResolutionKey (w : OutputSettingsWidget) (hw : Reachable w)
    (k : QString) :
    ((k ∈ kVirtualCameraResolutionPresets.map (fun p => p.key.toList) ∨
        (resolutionSizeForKey k).isValid = true) →
      (w.setResolutionKey k).1.resolutionKey = k) ∧
    (k ∉ kVirtualCameraResolutionPresets.map (fun p => p.key.toList) →
      (resolutionSizeForKey k).isValid = true →
      ∃ combo, (w.setResolutionKey k).1.m_resolutionCombo = some combo ∧
        combo.currentData = k ∧
        combo.currentText =
          "Custom (".toList ++ (Nat.repr (resolutionSizeForKey k).width.toNat).toList ++
            " x ".toList ++ (Nat.repr (resolutionSizeForKey k).height.toNat).toList ++
            ")".toList) ∧
    (¬ (k ∈ kVirtualCameraResolutionPresets.map (fun p => p.key.toList) ∨
        (resolutionSizeForKey k).isValid = true) →
      (w.setResolutionKey k).1.resolutionKey = "match".toList) ∧
    ((w.setResolutionKey k).1.resolutionKey = "match".toList ∨
      (0 < (resolutionSizeForKey (w.setResolutionKey k).1.resolutionKey).width ∧
        0 < (resolutionSizeForKey (w.setResolutionKey k).1.resolutionKey).height)) := by
  obtain ⟨combo, hc, h0, hcase⟩ := setResolutionKey_reachable_cases w hw k
  have hkey : (w.setResolutionKey k).1.resolutionKey = combo.currentData := by
    simp only [OutputSettingsWidget.resolutionKey, hc, not_lt.2 h0, if_false]
  rw [hkey]
  rcases hcase with ⟨hd, hk⟩ | ⟨hd, hnp, hinv⟩
  · refine ⟨fun _ => hd, ?_, ?_, ?_⟩
    · intro hnp hv
      rcases hk with hp | ⟨_, ht⟩
      · exact absurd hp hnp
      · exact ⟨combo, hc, hd, by rw [ht, custom_label_eq k hv]⟩
    · intro hneither
      rcases hk with hp | ⟨hv, _⟩
      · exact absurd (Or.inl hp) hneither
      · exact absurd (Or.inr hv) hneither
    · rw [hd]
      rcases hk with hp | ⟨hv, _⟩
      · rcases preset_key_cases k hp with hm | hv
        · exact Or.inl hm
        · exact Or.inr (resolutionSizeForKey_pos k hv)
      · exact Or.inr (resolutionSizeForKey_pos k hv)
  · refine ⟨?_, ?_, fun _ => hd, Or.inl hd⟩
    · rintro (hp | hv)
      · exact absurd hp hnp
      · rw [hinv] at hv
        exact absurd hv (by decide)
    · intro _ hv
      rw [hinv] at hv
      exact absurd hv (by decide)

/-- Witness of C1: on a new widget, after `setResolutionKey "640x480"` the
accessor `resolutionKey` gives "640x480". -/
theorem resolutionKey_setResolutionKey_witness :
    (OutputSettingsWidget.construct.setResolutionKey "640x480".toList).1.resolutionKey =
      "640x480".toList :=
  (resolutionKey_setResolutionKey OutputSettingsWidget.construct Reachable.construct
    "640x480".toList).1 (Or.inr (by decide))

/-- C10, as stated, fails: on a new widget `setResolutionKey "1280X720"`
appends the item "Custom (1280 x 720)", although (1280, 720) is the size of
the built-in preset "1280x720". -/
theorem custom_entry_with_preset_size :
    ∃ before after,
      OutputSettingsWidget.construct.m_resolutionCombo = some before ∧
      (OutputSettingsWidget.construct.setResolutionKey "1280X720".toList).1.m_resolutionCombo =
        some after ∧
      after.items = before.items ++ [("Custom (1280 x 720)".toList, "1280X720".toList)] ∧
      resolutionSizeForKey "1280X720".toList = ⟨1280, 720⟩ ∧
      (⟨"1280x720", 1280, 720⟩ : VirtualCameraResolutionPreset) ∈
        kVirtualCameraResolutionPresets :=
  ⟨_, _, rfl, rfl, by decide, by decide, by decide⟩

/-- C10, amended: if `setResolutionKey k` changes the items of the combo
box, then it has appended exactly one item, which carries `k` under the
label "Custom (W x H)", where (W, H) is `resolutionSizeForKey k`, valid and
positive; and `k` was the data of no item before, so that on a reachable
widget `k` is no preset key. -/
theorem custom_entry_only_for_new_key (w : OutputSettingsWidget) (k : QString)
    (before after : QComboBox) (hb : w.m_resolutionCombo = some before)
    (ha : (w.setResolutionKey k).1.m_resolutionCombo = some after)
    (hadd : after.items ≠ before.items) :
    (resolutionSizeForKey k).isValid = true ∧
      0 < (resolutionSizeForKey k).width ∧ 0 < (resolutionSizeForKey k).height ∧
      after.items = before.items ++
        [("Custom (".toList ++ (Nat.repr (resolutionSizeForKey k).width.toNat).toList ++
            " x ".toList ++ (Nat.repr (resolutionSizeForKey k).height.toNat).toList ++
            ")".toList, k)] ∧
      k ∉ before.items.map Prod.snd ∧
      (Reachable w → k ∉ kVirtualCameraResolutionPresets.map (fun p => p.key.toList)) := by
  rw [setResolutionKey_eq w before k hb] at ha
  simp only [Option.some.injEq] at ha
  by_cases h1 : 0 ≤ before.findData k
  · rw [if_pos h1] at ha
    subst ha
    exact absurd rfl hadd
  · rw [if_neg h1] at ha
    have hnot : k ∉ before.items.map Prod.snd := fun hm =>
      h1 ((findData_nonneg_iff before k).2 hm)
    by_cases h2 : (resolutionSizeForKey k).isValid = true
    · rw [if_pos h2, custom_label_eq k h2] at ha
      subst ha
      refine ⟨h2, (resolutionSizeForKey_pos k h2).1, (resolutionSizeForKey_pos k h2).2, rfl,
        hnot, ?_⟩
      intro hw hp
      obtain ⟨combo, extras, hc, hitems, _⟩ := reachable_combo w hw
      rw [hb] at hc
      obtain rfl := Option.some.inj hc
      apply hnot
      rw [hitems, List.map_append, List.map_map]
      exact List.mem_append_left _ hp
    · rw [if_neg h2] at ha
      by_cases h3 : 0 ≤ before.findData "match".toList
      · rw [if_pos h3] at ha
        subst ha
        exact absurd rfl hadd
      · rw [if_neg h3] at ha
        subst ha
        exact absurd rfl hadd

/-- Witness of C10 amended: on a new widget `setResolutionKey "640x480"`
appends the item "Custom (640 x 480)". -/
theorem custom_entry_only_for_new_key_witness :
    ∃ before after,
      OutputSettingsWidget.construct.m_resolutionCombo = some before ∧
      (OutputSettingsWidget.construct.setResolutionKey "640x480".toList).1.m_resolutionCombo =
        some after ∧
      after.items ≠ before.items ∧
      after.items = before.items ++ [("Custom (640 x 480)".toList, "640x480".toList)] ∧
      "640x480".toList ∉ kVirtualCameraResolutionPresets.map (fun p => p.key.toList) := by
  have h := custom_entry_only_for_new_key OutputSettingsWidget.construct "640x480".toList
    _ _ rfl rfl (by decide)
  exact ⟨_, _, rfl, rfl, by decide, by decide, h.2.2.2.2.2 Reachable.construct⟩

end OutputSettings
